import Mathlib

/-!
A shallow embedding of the recog-go fingerprint engine
(`fingerprints.go` and `nition.go`) together with proofs about its
specification.  External libraries (Go `regexp`, `encoding/xml`, the
filesystem) are modelled as explicit oracles: a compiled pattern is a
function from the input string to the capture list returned by
`FindStringSubmatch` (empty list = no match), `encoding/xml` is a
function from raw bytes to a parsed database, and file reading is a
function from a path to file contents.  Error values are modelled as
strings; where Go formats library error details into a message the
rendering here is abbreviated, but an error is produced in exactly the
same situations.  Go's `map[string]string` is modelled as an
association list whose canonical order is first-insertion order;
the engine only ever reads maps by key, removes by key, or updates
values in place, so this refines the unordered Go map.
-/

/-! ### String and list helpers (models of Go `strings`/`strconv` operations) -/

/-- Model of `strings.HasPrefix` on character lists. -/
def hasPre : List Char → List Char → Bool
  | [], _ => true
  | _ :: _, [] => false
  | a :: as, b :: bs => a == b && hasPre as bs

/-- Model of `strings.HasPrefix s pre`. -/
def strStartsWith (s pre : String) : Bool :=
  hasPre pre.data s.data

/-- Helper for `strContains`: does `pat` occur in the list? -/
def strContainsAux (pat : List Char) : List Char → Bool
  | [] => hasPre pat []
  | c :: rest => hasPre pat (c :: rest) || strContainsAux pat rest

/-- Model of `strings.Contains s pat`. -/
def strContains (s pat : String) : Bool :=
  strContainsAux pat.data s.data

/-- Characters matched by Go `unicode.IsSpace` in the Latin-1 range
(`strings.TrimSpace` trims these; wider Unicode space classes are not
exercised by this code base). -/
def goIsSpace (c : Char) : Bool :=
  c == ' ' || c == '\t' || c == '\n' || c == '\x0b' || c == '\x0c' || c == '\r' ||
  c == '\x85' || c == '\xa0'

/-- Model of `strings.TrimSpace`. -/
def goTrimSpace (s : String) : String :=
  String.mk (((s.data.dropWhile goIsSpace).reverse.dropWhile goIsSpace).reverse)

/-- Characters matched by the Go regexp class `\s` (used by the
whitespace-stripping pattern in `VerifyExamples`). -/
def goRegexSpace (c : Char) : Bool :=
  c == ' ' || c == '\t' || c == '\n' || c == '\x0c' || c == '\r'

/-- Model of `spacePat.ReplaceAllString data ""` where `spacePat` is the
regexp for one or more whitespace characters: removes every `\s` char. -/
def stripAllSpace (s : String) : String :=
  String.mk (s.data.filter (fun c => !(goRegexSpace c)))

/-- Fuel-driven worker for `strReplaceAll`; the fuel is the length of the
subject, which suffices because at least one character is consumed per
step. An empty search pattern is left alone (never exercised here). -/
def replaceAux (pat rep : List Char) : Nat → List Char → List Char
  | _, [] => []
  | 0, s => s
  | fuel + 1, c :: rest =>
    if hasPre pat (c :: rest) && !pat.isEmpty then
      rep ++ replaceAux pat rep fuel (List.drop (pat.length - 1) rest)
    else
      c :: replaceAux pat rep fuel rest

/-- Model of `strings.Replace s old new -1` (replace every occurrence,
left to right, non-overlapping). -/
def strReplaceAll (s old new : String) : String :=
  String.mk (replaceAux old.data new.data s.data.length s.data)

/-- Digit accumulator for `goAtoi`. -/
def digitsVal (ds : List Char) : Nat :=
  ds.foldl (fun a c => a * 10 + (c.toNat - 48)) 0

/-- Model of `strconv.Atoi`: optional sign, then one or more ASCII
digits, value within the 64-bit signed range; `none` models a non-nil
error (both syntax and range errors make the caller take its error
branch). -/
def goAtoi (s : String) : Option Int :=
  let p : Int × List Char :=
    match s.data with
    | '+' :: t => (1, t)
    | '-' :: t => (-1, t)
    | t => (1, t)
  if p.2 = [] then none
  else if p.2.all Char.isDigit then
    let v : Int := p.1 * (digitsVal p.2 : Int)
    if v < -(9223372036854775808 : Int) ∨ (9223372036854775807 : Int) < v then none
    else some v
  else none

/-- Association-list lookup, the model of reading a Go map by key. -/
def alistFind {β : Type} : List (String × β) → String → Option β
  | [], _ => none
  | (k0, v0) :: rest, k => if k0 = k then some v0 else alistFind rest k

/-- Association-list assignment, the model of `m[k] = v` on a Go map:
replace in place when the key exists, otherwise append. -/
def alistInsert {β : Type} : List (String × β) → String → β → List (String × β)
  | [], k, v => [(k, v)]
  | (k0, v0) :: rest, k, v =>
    if k0 = k then (k0, v) :: rest else (k0, v0) :: alistInsert rest k v

/-! ### base64 (model of `encoding/base64.StdEncoding.DecodeString`) -/

/-- Value of one standard-alphabet base64 character. -/
def b64Val (c : Char) : Option Nat :=
  let n := c.toNat
  if 65 ≤ n ∧ n ≤ 90 then some (n - 65)
  else if 97 ≤ n ∧ n ≤ 122 then some (n - 71)
  else if 48 ≤ n ∧ n ≤ 57 then some (n + 4)
  else if n = 43 then some 62
  else if n = 47 then some 63
  else none

/-- Decode base64 quanta of four characters; padding is only legal in
the final quantum, exactly as the strict Go standard decoder accepts. -/
def base64DecodeAux : List Char → Option (List Nat)
  | [] => some []
  | a :: b :: c :: d :: rest =>
    match b64Val a, b64Val b with
    | some va, some vb =>
      if c = '=' then
        if d = '=' ∧ rest = [] then some [va * 4 + vb / 16]
        else none
      else
        match b64Val c with
        | some vc =>
          if d = '=' then
            if rest = [] then some [va * 4 + vb / 16, (vb % 16) * 16 + vc / 4]
            else none
          else
            match b64Val d with
            | some vd =>
              match base64DecodeAux rest with
              | some tail =>
                some ([va * 4 + vb / 16, (vb % 16) * 16 + vc / 4, (vc % 4) * 64 + vd] ++ tail)
              | none => none
            | none => none
        | none => none
    | _, _ => none
  | _ => none

/-- Model of `base64.StdEncoding.DecodeString`; `none` is a decode error. -/
def base64Decode (s : String) : Option (List Nat) :=
  base64DecodeAux s.data

/-- Go builds a string directly from decoded bytes; bytes are re-read as
code points below 256 here. -/
def bytesToString (bs : List Nat) : String :=
  String.mk (bs.map Char.ofNat)

/-! ### Data model (structures from `fingerprints.go` / `nition.go`) -/

/-- One `param` record of a fingerprint (`FingerprintParam`). -/
structure FingerprintParam where
  Position : String := ""
  Name : String := ""
  Value : String := ""
deriving DecidableEq

/-- One `example` record of a fingerprint (`FingerprintExample`).
`Values` are the raw declared attributes in document order;
`AttributeMap` is the lookup built by `Normalize`. -/
structure FingerprintExample where
  Text : String := ""
  Values : List (String × String) := []
  AttributeMap : List (String × String) := []
deriving DecidableEq

/-- A fingerprint definition (`Fingerprint`).  `Description` is the text
of the optional description element (`none` models a nil pointer).
`PatternCompiled` is the compiled matcher: it returns the
`FindStringSubmatch` capture list, empty when the pattern does not
match.  Before `Normalize` runs it holds the nil placeholder. -/
structure Fingerprint where
  Pattern : String := ""
  Flags : String := ""
  Description : Option String := none
  Examples : List FingerprintExample := []
  Params : List FingerprintParam := []
  Certainty : String := ""
  PatternCompiled : String → List String := fun _ => []

/-- The result of matching a fingerprint (`FingerprintMatch`). -/
structure FingerprintMatch where
  Matched : Bool
  Errors : List String
  Values : List (String × String)
deriving DecidableEq

/-- Option set handed to the regex engine (`regexp/syntax` flags that
`Normalize` manipulates: `PerlX` always on, plus `FoldCase` and
`MatchNL`). -/
structure RegexFlags where
  perlX : Bool := true
  foldCase : Bool := false
  matchNL : Bool := false
deriving DecidableEq

/-- Oracle for the external regex library: `compile` models
`syntax.Parse` followed by `regexp.Compile`, producing either an error
message or a matcher. -/
structure RegexEngine where
  compile : String → RegexFlags → Except String (String → List String)

/-- A fingerprint database (`FingerprintDB`).  The diagnostic logger is
omitted: `DebugLogf` has no effect on any returned value. -/
structure FingerprintDB where
  Matches : String := ""
  Protocol : String := ""
  DatabaseType : String := ""
  Preference : String := ""
  Fingerprints : List Fingerprint := []
  Name : String := ""

/-- A registry of databases keyed by alias (`FingerprintSet`). -/
structure FingerprintSet where
  Databases : List (String × FingerprintDB)

/-- Oracle for `encoding/xml`: unmarshal raw file contents into a
database or fail. -/
structure XmlLib where
  unmarshal : String → Except String FingerprintDB

/-! ### Pattern normalizer (`Fingerprint.Normalize`) -/

/-- Split a flag string on the separator class of `flagsPattern`
(the characters `|` and `,`). -/
def splitFlagsAux (acc : List Char) : List Char → List String
  | [] => [String.mk acc.reverse]
  | c :: rest =>
    if c == '|' || c == ',' then String.mk acc.reverse :: splitFlagsAux [] rest
    else splitFlagsAux (c :: acc) rest

/-- Fold the recognized flag tokens into the option set; unrecognized
tokens are ignored. -/
def flagsFromString (s : String) : RegexFlags :=
  (splitFlagsAux [] s.data).foldl
    (fun fl t =>
      if t = "REG_ICASE" ∨ t = "IGNORECASE" then { fl with foldCase := true }
      else if t = "REG_DOT_NEWLINE" ∨ t = "REG_MULTILINE" ∨ t = "REG_LINE_ANY_CRLF" then
        { fl with matchNL := true }
      else fl)
    {}

/-- Build an example's `AttributeMap` from its declared attributes. -/
def exampleWithMap (ex : FingerprintExample) : FingerprintExample :=
  { ex with AttributeMap := ex.Values.foldl (fun m kv => alistInsert m kv.1 kv.2) [] }

/-- The pattern after the legacy-null-escape rewrite
(`\u0000` becomes `\x00`). -/
def normPattern (fp : Fingerprint) : String :=
  strReplaceAll fp.Pattern "\\u0000" "\\x00"

/-- The option set handed to the compiler: the flag-string options,
plus match-across-newlines when the rewritten pattern opens with the
`(?m)` inline marker. -/
def normFlags (fp : Fingerprint) : RegexFlags :=
  if strStartsWith (normPattern fp) "(?m)" then
    { flagsFromString fp.Flags with matchNL := true }
  else flagsFromString fp.Flags

/-- Model of `Fingerprint.Normalize`: compute flags, rewrite the legacy
null escape, couple `(?m)` with match-across-newlines, compile through
the engine oracle, flatten example attributes, and default an absent
certainty to `"0.85"`. -/
def Fingerprint.Normalize (eng : RegexEngine) (fp : Fingerprint) : Except String Fingerprint :=
  match eng.compile (normPattern fp) (normFlags fp) with
  | .error e => .error ("bad regexp [" ++ normPattern fp ++ "]: " ++ e)
  | .ok m =>
    .ok { fp with
          Pattern := normPattern fp
          PatternCompiled := m
          Examples := fp.Examples.map exampleWithMap
          Certainty := if fp.Certainty = "" then "0.85" else fp.Certainty }

/-! ### Match engine (`Fingerprint.Match`) -/

/-- Characters the template placeholder pattern accepts between the
braces (the class of `varSubPattern`). -/
def isIdentChar (c : Char) : Bool :=
  (('A' ≤ c && c ≤ 'Z') || ('a' ≤ c && c ≤ 'z') || ('0' ≤ c && c ≤ '9') ||
   c == '.' || c == '_' || c == '-')

/-- The mapping after the certainty seed (`fp.certainty`, set only when
the certainty is non-empty). -/
def seedCertainty (fp : Fingerprint) : List (String × String) :=
  if fp.Certainty = "" then [] else alistInsert [] "fp.certainty" fp.Certainty

/-- Seed the result mapping with `fp.certainty` and the description
text (under the key `matched`), in that order, each only when present. -/
def seedValues (fp : Fingerprint) : List (String × String) :=
  match fp.Description with
  | none => seedCertainty fp
  | some d => if d = "" then seedCertainty fp else alistInsert (seedCertainty fp) "matched" d

/-- State threaded through the first extraction pass. -/
structure MatchState where
  Values : List (String × String)
  Errors : List String
  ZeroKeys : List String
deriving DecidableEq

/-- Record a static key name (Go inserts into the `paramZeroKeys` set). -/
def zkInsert (zs : List String) (n : String) : List String :=
  if n ∈ zs then zs else zs ++ [n]

/-- Soft-error message for a position `strconv.Atoi` rejects. -/
def msgInvalidIndexSyntax (pos : String) : String :=
  "param index " ++ pos ++ " is invalid: invalid syntax"

/-- Soft-error message for a numeric position that is not positive. -/
def msgInvalidIndex (pos : String) : String :=
  "param index " ++ pos ++ " is invalid"

/-- Soft-error message for a capture index at or beyond the capture
list length. -/
def msgNotCaptured (pos : String) : String :=
  "param index " ++ pos ++ " was not captured"

/-- One step of the first extraction pass over the parameter rules;
`mts` is the capture list of the successful match. -/
def processParam (mts : List String) (st : MatchState) (p : FingerprintParam) : MatchState :=
  if p.Position = "0" then
    { st with Values := alistInsert st.Values p.Name p.Value
              ZeroKeys := zkInsert st.ZeroKeys p.Name }
  else
    match goAtoi p.Position with
    | none => { st with Errors := st.Errors ++ [msgInvalidIndexSyntax p.Position] }
    | some v =>
      if v ≤ 0 then { st with Errors := st.Errors ++ [msgInvalidIndex p.Position] }
      else if (mts.length : Int) ≤ v then
        { st with Errors := st.Errors ++ [msgNotCaptured p.Position] }
      else { st with Values := alistInsert st.Values p.Name (mts.getD v.toNat "") }

/-- Soft-error message for an unresolved template reference. -/
def msgUnresolved (rk : String) : String :=
  "param " ++ rk ++ " could not be substituted"

/-- The replacement the substitution closure produces for one resolved
placeholder name `rk` inside the original value `v`, together with an
optional soft error. -/
def replRef (values : List (String × String)) (v : String) (rk : String) :
    String × Option String :=
  match alistFind values rk with
  | none => ("\x7b" ++ rk ++ "\x7d", some (msgUnresolved rk))
  | some r =>
    if strStartsWith v "cpe:" && rk == "service.version" && r == "" then ("-", none)
    else (r, none)

/-- Scanner implementing `varSubPattern.ReplaceAllStringFunc`: walks the
value character by character; `buf = some cs` means the characters `cs`
have been read since an opening brace.  Returns the rewritten string,
the soft errors raised by the closure, and whether any placeholder
matched at all (`varSubPattern.MatchString`). -/
def scanChars (values : List (String × String)) (v : String) :
    List Char → Option (List Char) → String × List String × Bool
  | [], none => ("", [], false)
  | [], some buf => (String.mk ('\x7b' :: buf), [], false)
  | c :: rest, none =>
    if c = '\x7b' then scanChars values v rest (some [])
    else
      let r := scanChars values v rest none
      (String.mk [c] ++ r.1, r.2.1, r.2.2)
  | c :: rest, some buf =>
    if c = '\x7d' then
      if buf = [] then
        let r := scanChars values v rest none
        ("\x7b\x7d" ++ r.1, r.2.1, r.2.2)
      else
        let rr := replRef values v (String.mk buf)
        let r := scanChars values v rest none
        (rr.1 ++ r.1, rr.2.toList ++ r.2.1, true)
    else if isIdentChar c then scanChars values v rest (some (buf ++ [c]))
    else if c = '\x7b' then
      let r := scanChars values v rest (some [])
      (String.mk ('\x7b' :: buf) ++ r.1, r.2.1, r.2.2)
    else
      let r := scanChars values v rest none
      (String.mk ('\x7b' :: buf ++ [c]) ++ r.1, r.2.1, r.2.2)

/-- Run the placeholder scanner over a whole value. -/
def substituteRaw (values : List (String × String)) (v : String) :
    String × List String × Bool :=
  scanChars values v v.data none

/-- Second-pass step for one key of the result mapping: static keys with
at least one placeholder get their value rewritten and trimmed, errors
accumulate; every other key is left alone. -/
def substituteKey (zeroKeys : List String)
    (acc : List (String × String) × List String) (k : String) :
    List (String × String) × List String :=
  if k ∈ zeroKeys then
    match alistFind acc.1 k with
    | none => acc
    | some v =>
      let r := substituteRaw acc.1 v
      if r.2.2 then (alistInsert acc.1 k (goTrimSpace r.1), acc.2 ++ r.2.1)
      else acc
  else acc

/-- Drop every attribute whose name carries the reserved temporary
marker (`_tmp.`). -/
def removeTmp (m : List (String × String)) : List (String × String) :=
  m.filter (fun kv => !(strStartsWith kv.1 "_tmp."))

/-- State after the first extraction pass: the seeded mapping folded
through every parameter rule in declaration order. -/
def matchStateAfterParams (fp : Fingerprint) (mts : List String) : MatchState :=
  fp.Params.foldl (processParam mts) { Values := seedValues fp, Errors := [], ZeroKeys := [] }

/-- Mapping and error list after the second (template substitution)
pass, which walks the keys of the pass-one mapping. -/
def substitutedPair (fp : Fingerprint) (data : String) :
    List (String × String) × List String :=
  ((matchStateAfterParams fp (fp.PatternCompiled data)).Values.map Prod.fst).foldl
    (substituteKey (matchStateAfterParams fp (fp.PatternCompiled data)).ZeroKeys)
    ((matchStateAfterParams fp (fp.PatternCompiled data)).Values,
     (matchStateAfterParams fp (fp.PatternCompiled data)).Errors)

/-- The result `Match` builds once the pattern has matched: both
extraction passes followed by the temporary-key sweep. -/
def matchedResult (fp : Fingerprint) (data : String) : FingerprintMatch :=
  { Matched := true
    Errors := (substitutedPair fp data).2
    Values := removeTmp (substitutedPair fp data).1 }

/-- Model of `Fingerprint.Match`: run the compiled matcher, seed the
mapping, run the two extraction passes and the temporary-key sweep.
The staging into `matchStateAfterParams`, `substitutedPair` and
`matchedResult` names the intermediate values the Go function holds in
locals; `PatternCompiled` is pure, so re-evaluating it per stage is
observationally identical to Go's single evaluation. -/
def Fingerprint.Match (fp : Fingerprint) (data : String) : FingerprintMatch :=
  if (fp.PatternCompiled data).length = 0 then { Matched := false, Errors := [], Values := [] }
  else matchedResult fp data

/-! ### Database operations (`FingerprintDB`) -/

/-- Scan fingerprints in declared order for the first match
(`FingerprintDB.MatchFirst`). -/
def matchFirstAux (data : String) : List Fingerprint → FingerprintMatch
  | [] => { Matched := false, Errors := [], Values := [] }
  | f :: rest =>
    let m := f.Match data
    if m.Matched then m else matchFirstAux data rest

/-- Model of `FingerprintDB.MatchFirst`. -/
def FingerprintDB.MatchFirst (fdb : FingerprintDB) (data : String) : FingerprintMatch :=
  matchFirstAux data fdb.Fingerprints

/-- Collect every match in declared order (`FingerprintDB.MatchAll`). -/
def matchAllAux (data : String) : List Fingerprint → List FingerprintMatch
  | [] => []
  | f :: rest =>
    let m := f.Match data
    if m.Matched then m :: matchAllAux data rest else matchAllAux data rest

/-- Model of `FingerprintDB.MatchAll`. -/
def FingerprintDB.MatchAll (fdb : FingerprintDB) (data : String) : List FingerprintMatch :=
  matchAllAux data fdb.Fingerprints

/-- Normalize a list of fingerprints, stopping at the first error
(`FingerprintDB.Normalize` body). -/
def normalizeFPs (eng : RegexEngine) : List Fingerprint → Except String (List Fingerprint)
  | [] => .ok []
  | fp :: rest =>
    match fp.Normalize eng with
    | .error e => .error e
    | .ok fp' =>
      match normalizeFPs eng rest with
      | .error e => .error e
      | .ok rest' => .ok (fp' :: rest')

/-- Model of `FingerprintDB.Normalize`. -/
def FingerprintDB.Normalize (eng : RegexEngine) (fdb : FingerprintDB) :
    Except String FingerprintDB :=
  match normalizeFPs eng fdb.Fingerprints with
  | .error e => .error e
  | .ok fps => .ok { fdb with Fingerprints := fps }

/-- Model of `LoadFingerprintDB`: unmarshal, store the source name,
normalize. -/
def LoadFingerprintDB (xml : XmlLib) (eng : RegexEngine) (name : String) (xmlData : String) :
    Except String FingerprintDB :=
  match xml.unmarshal xmlData with
  | .error e => .error e
  | .ok fdb0 => FingerprintDB.Normalize eng { fdb0 with Name := name }

/-! ### Registry (`FingerprintSet`, `nition.go`) -/

/-- Message for a lookup of an unregistered alias. -/
def msgMissingDB (name : String) : String :=
  "database " ++ name ++ " is missing"

/-- Model of `FingerprintSet.MatchFirst`. -/
def FingerprintSet.MatchFirst (fs : FingerprintSet) (name data : String) : FingerprintMatch :=
  match alistFind fs.Databases name with
  | none => { Matched := false, Errors := [msgMissingDB name], Values := [] }
  | some fdb => fdb.MatchFirst data

/-- Model of `FingerprintSet.MatchAll`. -/
def FingerprintSet.MatchAll (fs : FingerprintSet) (name data : String) :
    List FingerprintMatch :=
  match alistFind fs.Databases name with
  | none => [{ Matched := false, Errors := [msgMissingDB name], Values := [] }]
  | some fdb => fdb.MatchAll data

/-- One iteration of the load loop: skip entries without the `.xml`
marker, otherwise parse and normalize the file and register the
database under its file-name alias and its `matches` alias.  Returns
the updated registry state and an optional fatal error. -/
def loadFile (xml : XmlLib) (eng : RegexEngine) (fs : FingerprintSet)
    (file : String × String) : FingerprintSet × Option String :=
  if strContains file.1 ".xml" = false then (fs, none)
  else
    match LoadFingerprintDB xml eng file.1 file.2 with
    | .error e => (fs, some ("failed to load " ++ file.1 ++ ": " ++ e))
    | .ok fdb =>
      ({ Databases := alistInsert (alistInsert fs.Databases file.1 fdb) fdb.Matches fdb },
       none)

/-- Model of the loop body of `FingerprintSet.LoadFingerprintsFromFS`:
process the directory listing in order, stopping at the first error.
The receiver is threaded explicitly, so the returned state is the state
of the (mutated) set when the function returns. -/
def FingerprintSet.LoadFingerprintsFromFS (xml : XmlLib) (eng : RegexEngine)
    (fs : FingerprintSet) : List (String × String) → FingerprintSet × Option String
  | [] => (fs, none)
  | file :: rest =>
    match loadFile xml eng fs file with
    | (fs', none) => FingerprintSet.LoadFingerprintsFromFS xml eng fs' rest
    | (fs', some e) => (fs', some e)

/-- Model of the package-level `LoadFingerprints`: allocate a fresh set,
run the load, and hand both the set and the error to the caller. -/
def LoadFingerprints (xml : XmlLib) (eng : RegexEngine)
    (files : List (String × String)) : FingerprintSet × Option String :=
  FingerprintSet.LoadFingerprintsFromFS xml eng { Databases := [] } files

/-- The alias keys a file contributes to the registry when the load
succeeds on it: its name and its parsed `matches` attribute. -/
def dbAliases (xml : XmlLib) (eng : RegexEngine) (file : String × String) : List String :=
  if strContains file.1 ".xml" = false then []
  else
    match LoadFingerprintDB xml eng file.1 file.2 with
    | .error _ => []
    | .ok fdb => [file.1, fdb.Matches]

/-- All alias keys a listing contributes, in registration order. -/
def allAliases (xml : XmlLib) (eng : RegexEngine) : List (String × String) → List String
  | [] => []
  | f :: rest => dbAliases xml eng f ++ allAliases xml eng rest

/-! ### Verification harness (`VerifyExamples`) -/

/-- Resolve the text an example is matched against: read the external
file when `_filename` is declared, then base64-decode (after stripping
whitespace) when `_encoding` is `base64`.  `readF` is the file-reading
oracle (`os.ReadFile` on the joined path). -/
def resolveExample (readF : String → Except String String) (fpath : String)
    (ex : FingerprintExample) : Except String String :=
  let step1 : Except String String :=
    match alistFind ex.AttributeMap "_filename" with
    | some datafile =>
      match readF (fpath ++ "/" ++ datafile) with
      | .error e => .error ("external example file: " ++ e)
      | .ok s => .ok s
    | none => .ok ex.Text
  match step1 with
  | .error e => .error e
  | .ok d0 =>
    match alistFind ex.AttributeMap "_encoding" with
    | some enc =>
      if enc = "base64" then
        match base64Decode (stripAllSpace d0) with
        | none => .error ("base64: invalid input")
        | some bytes => .ok (bytesToString bytes)
      else .ok d0
    | none => .ok d0

/-- Compare every declared non-metadata attribute of an example against
the produced mapping; the first missing or mismatched attribute yields
an error. -/
def checkAttrs (m : FingerprintMatch) : List (String × String) → Option String
  | [] => none
  | (k, v) :: rest =>
    if k = "_encoding" ∨ k = "_filename" then checkAttrs m rest
    else
      match alistFind m.Values k with
      | none => some ("missing attribute " ++ k)
      | some verify =>
        if verify = v then checkAttrs m rest
        else some ("mismatched attribute value for " ++ k)

/-- Verify one example: resolve its text, run `Match`, require a match
with zero soft errors, then compare declared attributes. -/
def verifyExample (readF : String → Except String String) (fpath : String)
    (fp : Fingerprint) (ex : FingerprintExample) : Option String :=
  match resolveExample readF fpath ex with
  | .error e => some e
  | .ok d =>
    if (fp.Match d).Matched = false then some "failed to match"
    else if (fp.Match d).Errors.length ≠ 0 then some "matched with errors"
    else checkAttrs (fp.Match d) ex.AttributeMap

/-- First error produced by a function over a list (the early-return
loop shape shared by both `VerifyExamples` methods). -/
def firstSome {α β : Type} (f : α → Option β) : List α → Option β
  | [] => none
  | a :: rest =>
    match f a with
    | some e => some e
    | none => firstSome f rest

/-- Model of `Fingerprint.VerifyExamples`. -/
def Fingerprint.VerifyExamples (readF : String → Except String String) (fpath : String)
    (fp : Fingerprint) : Option String :=
  firstSome (verifyExample readF fpath fp) fp.Examples

/-- Model of `FingerprintDB.VerifyExamples`. -/
def FingerprintDB.VerifyExamples (readF : String → Except String String) (fpath : String)
    (fdb : FingerprintDB) : Option String :=
  firstSome (fun fp => fp.VerifyExamples readF fpath) fdb.Fingerprints

/-! ### Basic lemmas about the association-list map -/

theorem alistFind_insert_self {β : Type} (m : List (String × β)) (k : String) (v : β) :
    alistFind (alistInsert m k v) k = some v := by
  induction m with
  | nil => simp [alistInsert, alistFind]
  | cons kv rest ih =>
    obtain ⟨k0, v0⟩ := kv
    by_cases h : k0 = k
    · simp [alistInsert, alistFind, h]
    · simp [alistInsert, alistFind, h, ih]

theorem alistFind_insert_ne {β : Type} (m : List (String × β)) (k k' : String) (v : β)
    (h : k' ≠ k) : alistFind (alistInsert m k' v) k = alistFind m k := by
  induction m with
  | nil => simp [alistInsert, alistFind, h]
  | cons kv rest ih =>
    obtain ⟨k0, v0⟩ := kv
    by_cases h0 : k0 = k'
    · subst h0
      simp [alistInsert, alistFind, h]
    · simp [alistInsert, alistFind, h0, ih]

theorem alistFind_insert_isSome {β : Type} (m : List (String × β)) (k k' : String) (v : β)
    (h : (alistFind m k).isSome = true) :
    (alistFind (alistInsert m k' v) k).isSome = true := by
  by_cases hk : k' = k
  · subst hk
    rw [alistFind_insert_self]
    rfl
  · rw [alistFind_insert_ne m k k' v hk]
    exact h

theorem alistFind_append {β : Type} (m1 m2 : List (String × β)) (k : String) :
    alistFind (m1 ++ m2) k =
      match alistFind m1 k with
      | some v => some v
      | none => alistFind m2 k := by
  induction m1 with
  | nil => simp [alistFind]
  | cons kv rest ih =>
    obtain ⟨k0, v0⟩ := kv
    by_cases h : k0 = k
    · simp [alistFind, h]
    · simp [alistFind, h, ih]

theorem alistInsert_of_find_none {β : Type} (m : List (String × β)) (k : String) (v : β)
    (h : alistFind m k = none) : alistInsert m k v = m ++ [(k, v)] := by
  induction m with
  | nil => simp [alistInsert]
  | cons kv rest ih =>
    obtain ⟨k0, v0⟩ := kv
    by_cases h0 : k0 = k
    · simp [alistFind, h0] at h
    · simp [alistFind, h0] at h
      simp [alistInsert, h0, ih h]

/-! ### C1: MatchFirst returns the first fingerprint whose pattern matches -/

theorem Match_matched_iff (fp : Fingerprint) (data : String) :
    (fp.Match data).Matched = !(fp.PatternCompiled data).isEmpty := by
  unfold Fingerprint.Match
  cases h : fp.PatternCompiled data with
  | nil => simp [h]
  | cons a l => simp [h, matchedResult]

/-- C1: for every fingerprint database and every input string,
`MatchFirst` scans the fingerprints in declared order and returns the
result of the first fingerprint whose compiled pattern matches the
input; if no fingerprint matches it returns a `matched = false` result.
In particular, when an earlier fingerprint and a later one both match,
the earlier one's result is returned. -/
theorem MatchFirst_first_declared_match (fdb : FingerprintDB) (data : String) :
    fdb.MatchFirst data =
      match fdb.Fingerprints.find? (fun f => !(f.PatternCompiled data).isEmpty) with
      | some f => f.Match data
      | none => { Matched := false, Errors := [], Values := [] } := by
  show matchFirstAux data fdb.Fingerprints = _
  induction fdb.Fingerprints with
  | nil => rfl
  | cons f rest ih =>
    rw [List.find?_cons]
    cases hp : (f.PatternCompiled data).isEmpty with
    | true =>
      have hm : (f.Match data).Matched = false := by rw [Match_matched_iff, hp]; rfl
      simp [matchFirstAux, hm, hp, ih]
    | false =>
      have hm : (f.Match data).Matched = true := by rw [Match_matched_iff, hp]; rfl
      simp [matchFirstAux, hm, hp]

/-! ### C6: failing to match is not an error condition -/

/-- C6: for every compiled fingerprint and every input the compiled
pattern does not match, `Match` returns `matched = false` with an empty
attribute mapping and an empty error list. -/
theorem Match_no_match_clean (fp : Fingerprint) (data : String)
    (h : fp.PatternCompiled data = []) :
    fp.Match data = { Matched := false, Errors := [], Values := [] } := by
  unfold Fingerprint.Match
  simp [h]

/-- Witness for C6 on a concrete never-matching fingerprint. -/
theorem Match_no_match_clean_witness :
    Fingerprint.Match {} "anything" = { Matched := false, Errors := [], Values := [] } :=
  Match_no_match_clean {} "anything" rfl

/-! ### C3: positive-position parameter rules and their soft errors -/

/-- C3: during extraction on a successful match with capture list
`mts`, a parameter rule whose position is not the literal `"0"` behaves
as follows: a non-numeric position, a position at most `0`, or a
capture index at or beyond the length of the capture list only appends
one soft error to the error list (the rule is skipped, the mapping is
untouched); a valid positive index copies the captured substring into
the mapping under the rule's name; and in every case the fold over the
parameter rules continues with the remaining rules. -/
theorem processParam_positive_position (mts : List String) (st : MatchState)
    (p : FingerprintParam) (rest : List FingerprintParam)
    (hpos : p.Position ≠ "0") :
    (goAtoi p.Position = none →
       processParam mts st p =
         { st with Errors := st.Errors ++ [msgInvalidIndexSyntax p.Position] }) ∧
    (∀ v : Int, goAtoi p.Position = some v → v ≤ 0 →
       processParam mts st p =
         { st with Errors := st.Errors ++ [msgInvalidIndex p.Position] }) ∧
    (∀ v : Int, goAtoi p.Position = some v → 0 < v → (mts.length : Int) ≤ v →
       processParam mts st p =
         { st with Errors := st.Errors ++ [msgNotCaptured p.Position] }) ∧
    (∀ v : Int, goAtoi p.Position = some v → 0 < v → v < (mts.length : Int) →
       processParam mts st p =
         { st with Values := alistInsert st.Values p.Name (mts.getD v.toNat "") }) ∧
    (p :: rest).foldl (processParam mts) st =
      rest.foldl (processParam mts) (processParam mts st p) := by
  refine ⟨?_, ?_, ?_, ?_, List.foldl_cons _ _⟩
  · intro hnone
    unfold processParam
    rw [if_neg hpos, hnone]
  · intro v hv hle
    unfold processParam
    rw [if_neg hpos, hv]
    simp [hle]
  · intro v hv hpos' hge
    unfold processParam
    rw [if_neg hpos, hv]
    simp only
    rw [if_neg (by omega), if_pos hge]
  · intro v hv hpos' hlt
    unfold processParam
    rw [if_neg hpos, hv]
    simp only
    rw [if_neg (by omega), if_neg (by omega)]

/-- Witness for C3 at a concrete rule with a non-numeric position. -/
theorem processParam_positive_position_witness :
    processParam ["cap"] { Values := [], Errors := [], ZeroKeys := [] }
        { Position := "abc", Name := "n", Value := "" } =
      { Values := [], Errors := [msgInvalidIndexSyntax "abc"], ZeroKeys := [] } :=
  (processParam_positive_position ["cap"] { Values := [], Errors := [], ZeroKeys := [] }
    { Position := "abc", Name := "n", Value := "" } [] (by decide)).1 rfl

/-! ### C7: unknown registry keys are a soft condition -/

/-- C7: for every registry and every key not registered as an alias,
`MatchFirst` returns a `matched = false` result carrying a descriptive
lookup error, and `MatchAll` returns a one-element list holding such a
result, for every input string. -/
theorem FingerprintSet_unknown_key (fs : FingerprintSet) (name data : String)
    (h : alistFind fs.Databases name = none) :
    fs.MatchFirst name data =
      { Matched := false, Errors := [msgMissingDB name], Values := [] } ∧
    fs.MatchAll name data =
      [{ Matched := false, Errors := [msgMissingDB name], Values := [] }] := by
  unfold FingerprintSet.MatchFirst FingerprintSet.MatchAll
  rw [h]
  exact ⟨rfl, rfl⟩

/-- Witness for C7 on an empty registry and the key from the spec's
unknown-key example. -/
theorem FingerprintSet_unknown_key_witness :
    FingerprintSet.MatchFirst { Databases := [] } "nonexistent.xml" "anything" =
      { Matched := false, Errors := [msgMissingDB "nonexistent.xml"], Values := [] } ∧
    FingerprintSet.MatchAll { Databases := [] } "nonexistent.xml" "anything" =
      [{ Matched := false, Errors := [msgMissingDB "nonexistent.xml"], Values := [] }] :=
  FingerprintSet_unknown_key { Databases := [] } "nonexistent.xml" "anything" rfl

/-! ### C5: no temporary key survives into the returned mapping -/

/-- C5: for every fingerprint and every input string, the attribute
mapping returned by `Match` contains no key beginning with the reserved
temporary marker `_tmp.`. -/
theorem Match_no_tmp_keys (fp : Fingerprint) (data : String)
    (kv : String × String) (hmem : kv ∈ (fp.Match data).Values) :
    strStartsWith kv.1 "_tmp." = false := by
  unfold Fingerprint.Match at hmem
  by_cases h : (fp.PatternCompiled data).length = 0
  · rw [if_pos h] at hmem
    simp at hmem
  · rw [if_neg h] at hmem
    have hmem' : kv ∈ removeTmp (substitutedPair fp data).1 := hmem
    have := List.mem_filter.mp hmem'
    have hb := this.2
    simp only [Bool.not_eq_true'] at hb
    exact hb

/-- Witness for C5: a concrete match result with a surviving key, whose
name indeed does not carry the temporary marker. -/
theorem Match_no_tmp_keys_witness :
    strStartsWith ("fp.certainty", "0.9").1 "_tmp." = false :=
  Match_no_tmp_keys
    { Certainty := "0.9", PatternCompiled := fun s => [s] } "inp"
    ("fp.certainty", "0.9") (by decide)

/-! ### C10: defaulted certainty is seeded into every successful match -/

theorem seedCertainty_find (fp : Fingerprint) (h : fp.Certainty ≠ "") :
    alistFind (seedCertainty fp) "fp.certainty" = some fp.Certainty := by
  unfold seedCertainty
  rw [if_neg h]
  simp [alistInsert, alistFind]

theorem seedValues_certainty (fp : Fingerprint) (h : fp.Certainty ≠ "") :
    alistFind (seedValues fp) "fp.certainty" = some fp.Certainty := by
  cases hD : fp.Description with
  | none =>
    simp only [seedValues, hD]
    exact seedCertainty_find fp h
  | some d =>
    simp only [seedValues, hD]
    by_cases hd : d = ""
    · rw [if_pos hd]
      exact seedCertainty_find fp h
    · rw [if_neg hd,
        alistFind_insert_ne (seedCertainty fp) "fp.certainty" "matched" d (by decide)]
      exact seedCertainty_find fp h

theorem processParam_find_isSome (mts : List String) (st : MatchState)
    (p : FingerprintParam) (k : String)
    (h : (alistFind st.Values k).isSome = true) :
    (alistFind (processParam mts st p).Values k).isSome = true := by
  unfold processParam
  by_cases h0 : p.Position = "0"
  · simp only [h0, if_pos rfl]
    exact alistFind_insert_isSome _ _ _ _ h
  · rw [if_neg h0]
    cases hg : goAtoi p.Position with
    | none =>
      simp only [hg]
      exact h
    | some v =>
      simp only [hg]
      by_cases hv : v ≤ 0
      · rw [if_pos hv]
        exact h
      · rw [if_neg hv]
        by_cases hlen : (mts.length : Int) ≤ v
        · rw [if_pos hlen]
          exact h
        · rw [if_neg hlen]
          exact alistFind_insert_isSome _ _ _ _ h

theorem foldl_processParam_find_isSome (mts : List String) (ps : List FingerprintParam)
    (st : MatchState) (k : String)
    (h : (alistFind st.Values k).isSome = true) :
    (alistFind ((ps.foldl (processParam mts) st).Values) k).isSome = true := by
  induction ps generalizing st with
  | nil => exact h
  | cons p rest ih =>
    rw [List.foldl_cons]
    exact ih _ (processParam_find_isSome mts st p k h)

theorem substituteKey_find_isSome (zks : List String)
    (acc : List (String × String) × List String) (k0 k : String)
    (h : (alistFind acc.1 k).isSome = true) :
    (alistFind (substituteKey zks acc k0).1 k).isSome = true := by
  unfold substituteKey
  by_cases hz : k0 ∈ zks
  · simp only [hz, if_pos hz]
    cases alistFind acc.1 k0 with
    | none => exact h
    | some v =>
      by_cases hf : (substituteRaw acc.1 v).2.2 = true
      · simp only [hf, if_pos hf]
        exact alistFind_insert_isSome _ _ _ _ h
      · simp only [Bool.not_eq_true] at hf
        simp only [hf, Bool.false_eq_true, if_false]
        exact h
  · simp only [hz, if_neg hz]
    exact h

theorem foldl_substituteKey_find_isSome (zks : List String) (ks : List String)
    (acc : List (String × String) × List String) (k : String)
    (h : (alistFind acc.1 k).isSome = true) :
    (alistFind ((ks.foldl (substituteKey zks) acc)).1 k).isSome = true := by
  induction ks generalizing acc with
  | nil => exact h
  | cons k0 rest ih =>
    rw [List.foldl_cons]
    exact ih _ (substituteKey_find_isSome zks acc k0 k h)

theorem alistFind_removeTmp (m : List (String × String)) (k : String)
    (hk : strStartsWith k "_tmp." = false) :
    alistFind (removeTmp m) k = alistFind m k := by
  induction m with
  | nil => rfl
  | cons kv rest ih =>
    obtain ⟨k0, v0⟩ := kv
    by_cases he : k0 = k
    · subst he
      simp [removeTmp, List.filter, hk, alistFind]
    · by_cases hp : strStartsWith k0 "_tmp." = true
      · simp only [removeTmp, List.filter, hp, Bool.not_true] at ih ⊢
        rw [ih]
        simp [alistFind, he]
      · simp only [Bool.not_eq_true] at hp
        simp only [removeTmp, List.filter, hp, Bool.not_false] at ih ⊢
        simp [alistFind, he, ih]

theorem Match_certainty_present (fp : Fingerprint) (data : String)
    (hc : fp.Certainty ≠ "") (hm : (fp.Match data).Matched = true) :
    (alistFind (fp.Match data).Values "fp.certainty").isSome = true := by
  unfold Fingerprint.Match at hm ⊢
  by_cases h : (fp.PatternCompiled data).length = 0
  · rw [if_pos h] at hm
    simp at hm
  · rw [if_neg h]
    show (alistFind (removeTmp (substitutedPair fp data).1) "fp.certainty").isSome = true
    rw [alistFind_removeTmp _ _ (by decide)]
    unfold substitutedPair
    apply foldl_substituteKey_find_isSome
    unfold matchStateAfterParams
    apply foldl_processParam_find_isSome
    rw [seedValues_certainty fp hc]
    rfl

/-- C10: if `Normalize` succeeded on a fingerprint then its certainty is
non-empty (an absent certainty was defaulted to `"0.85"`), and every
successful `Match` result carries the `fp.certainty` attribute: it is
seeded on match and no later extraction step removes that key. -/
theorem Normalize_certainty_in_match (eng : RegexEngine) (fp fp' : Fingerprint)
    (hn : fp.Normalize eng = .ok fp') (data : String)
    (hm : (fp'.Match data).Matched = true) :
    fp'.Certainty ≠ "" ∧
    (alistFind (fp'.Match data).Values "fp.certainty").isSome = true := by
  have hc : fp'.Certainty ≠ "" := by
    unfold Fingerprint.Normalize at hn
    cases hcomp : eng.compile (normPattern fp) (normFlags fp) with
    | error e =>
      rw [hcomp] at hn
      exact absurd hn (by simp)
    | ok m =>
      rw [hcomp] at hn
      have := Except.ok.inj hn
      rw [← this]
      by_cases hce : fp.Certainty = ""
      · simp [hce]
      · simp [hce]
  exact ⟨hc, Match_certainty_present fp' data hc hm⟩

/-- Concrete regex-engine oracle whose matcher echoes the input; used by
witnesses. -/
def engEcho : RegexEngine := { compile := fun _ _ => .ok (fun s => [s]) }

/-- Concrete fingerprint with an absent certainty, for the C10 witness. -/
def fpNoCert : Fingerprint := { Pattern := "p" }

/-- The normalized form of `fpNoCert` under `engEcho`. -/
def fpNoCertNorm : Fingerprint :=
  match fpNoCert.Normalize engEcho with
  | .ok f => f
  | .error _ => fpNoCert

/-- Witness for C10 at a concrete normalized fingerprint and input. -/
theorem Normalize_certainty_in_match_witness :
    fpNoCertNorm.Certainty ≠ "" ∧
    (alistFind (fpNoCertNorm.Match "banner").Values "fp.certainty").isSome = true :=
  Normalize_certainty_in_match engEcho fpNoCert fpNoCertNorm rfl "banner" (by decide)

/-! ### C2: load stops at the first failure but the partial set is returned -/

/-- Concrete `encoding/xml` oracle for the load scenarios: one
well-formed document and everything else malformed. -/
def xmlC2 : XmlLib :=
  { unmarshal := fun s =>
      if s = "okdoc" then .ok { Matches := "svc.banner" }
      else .error "xml parse error" }

/-- C2 counterexample: with a listing whose second file fails to parse,
the package-level load returns the error together with a set that
already contains the database loaded from the first file — the caller
does receive a partial registry alongside the error, contradicting the
claim that no partial registry is ever returned. -/
theorem load_partial_registry_returned :
    (LoadFingerprints xmlC2 engEcho [("a.xml", "okdoc"), ("b.xml", "broken")]).2 =
      some ("failed to load b.xml: xml parse error") ∧
    (alistFind (LoadFingerprints xmlC2 engEcho
        [("a.xml", "okdoc"), ("b.xml", "broken")]).1.Databases "a.xml").isSome = true ∧
    (alistFind (LoadFingerprints xmlC2 engEcho
        [("a.xml", "okdoc"), ("b.xml", "broken")]).1.Databases "b.xml").isSome = false :=
  ⟨rfl, rfl, rfl⟩

/-- C2 amended: any single parse/normalize failure aborts the load at
that file — later files are never processed and a non-nil error is
returned — but the `FingerprintSet` handed back alongside the error is
exactly the state accumulated before the failing file, so a caller only
gets all-or-nothing behaviour by discarding the set when the error is
non-nil. -/
theorem load_aborts_at_first_failure (xml : XmlLib) (eng : RegexEngine)
    (fs0 fs1 : FingerprintSet) (l1 l2 : List (String × String)) (n c e : String)
    (h1 : FingerprintSet.LoadFingerprintsFromFS xml eng fs0 l1 = (fs1, none))
    (hx : strContains n ".xml" = true)
    (hf : LoadFingerprintDB xml eng n c = .error e) :
    FingerprintSet.LoadFingerprintsFromFS xml eng fs0 (l1 ++ (n, c) :: l2) =
      (fs1, some ("failed to load " ++ n ++ ": " ++ e)) := by
  induction l1 generalizing fs0 with
  | nil =>
    have hfs : fs0 = fs1 := by
      have h1' : (fs0, (none : Option String)) = (fs1, none) := h1
      exact (Prod.mk.injEq _ _ _ _).mp h1' |>.1
    subst hfs
    have hstep : loadFile xml eng fs0 (n, c) =
        (fs0, some ("failed to load " ++ n ++ ": " ++ e)) := by
      unfold loadFile
      rw [hx, if_neg (by decide), hf]
    simp only [List.nil_append, FingerprintSet.LoadFingerprintsFromFS, hstep]
  | cons f rest ih =>
    simp only [FingerprintSet.LoadFingerprintsFromFS] at h1
    cases hlf : loadFile xml eng fs0 f with
    | mk fs' err =>
      cases err with
      | none =>
        rw [hlf] at h1
        simp only [List.cons_append, FingerprintSet.LoadFingerprintsFromFS, hlf]
        exact ih fs' h1
      | some e' =>
        rw [hlf] at h1
        simp at h1

/-- The partial registry state after loading only `a.xml` in the C2
witness scenario. -/
def dbOkDoc : FingerprintDB := { Matches := "svc.banner", Name := "a.xml" }

/-- Witness for the amended C2 theorem at a concrete two-file listing. -/
theorem load_aborts_at_first_failure_witness :
    FingerprintSet.LoadFingerprintsFromFS xmlC2 engEcho { Databases := [] }
        ([("a.xml", "okdoc")] ++ ("b.xml", "broken") :: []) =
      ({ Databases := [("a.xml", dbOkDoc), ("svc.banner", dbOkDoc)] },
       some ("failed to load b.xml: xml parse error")) :=
  load_aborts_at_first_failure xmlC2 engEcho { Databases := [] }
    { Databases := [("a.xml", dbOkDoc), ("svc.banner", dbOkDoc)] }
    [("a.xml", "okdoc")] [] "b.xml" "broken" "xml parse error" rfl rfl rfl

/-! ### C8: alias registration and resolution -/

theorem allAliases_append (xml : XmlLib) (eng : RegexEngine)
    (l1 l2 : List (String × String)) :
    allAliases xml eng (l1 ++ l2) = allAliases xml eng l1 ++ allAliases xml eng l2 := by
  induction l1 with
  | nil => simp [allAliases]
  | cons f rest ih => simp [allAliases, ih]

theorem loadFS_append (xml : XmlLib) (eng : RegexEngine) (fs0 fs' : FingerprintSet)
    (l1 l2 : List (String × String))
    (h : FingerprintSet.LoadFingerprintsFromFS xml eng fs0 (l1 ++ l2) = (fs', none)) :
    ∃ fs1, FingerprintSet.LoadFingerprintsFromFS xml eng fs0 l1 = (fs1, none) ∧
      FingerprintSet.LoadFingerprintsFromFS xml eng fs1 l2 = (fs', none) := by
  induction l1 generalizing fs0 with
  | nil => exact ⟨fs0, rfl, h⟩
  | cons f rest ih =>
    rw [List.cons_append] at h
    simp only [FingerprintSet.LoadFingerprintsFromFS] at h ⊢
    cases hlf : loadFile xml eng fs0 f with
    | mk fsf err =>
      cases err with
      | none =>
        rw [hlf] at h
        exact ih fsf h
      | some e =>
        rw [hlf] at h
        simp at h

theorem find_after_load (xml : XmlLib) (eng : RegexEngine)
    (l : List (String × String)) (fs fs' : FingerprintSet) (k : String)
    (h : FingerprintSet.LoadFingerprintsFromFS xml eng fs l = (fs', none))
    (hk : k ∉ allAliases xml eng l) :
    alistFind fs'.Databases k = alistFind fs.Databases k := by
  induction l generalizing fs with
  | nil =>
    have : fs = fs' := by
      have h' : (fs, (none : Option String)) = (fs', none) := h
      exact (Prod.mk.injEq _ _ _ _).mp h' |>.1
    rw [← this]
  | cons f rest ih =>
    simp only [FingerprintSet.LoadFingerprintsFromFS] at h
    simp only [allAliases, List.mem_append, not_or] at hk
    by_cases hc : strContains f.1 ".xml" = false
    · have hlf : loadFile xml eng fs f = (fs, none) := by
        unfold loadFile
        rw [if_pos hc]
      rw [hlf] at h
      exact ih fs h hk.2
    · have hc' : strContains f.1 ".xml" = true := by
        cases hcc : strContains f.1 ".xml"
        · exact absurd hcc hc
        · rfl
      cases hdb : LoadFingerprintDB xml eng f.1 f.2 with
      | error e =>
        have hlf : loadFile xml eng fs f =
            (fs, some ("failed to load " ++ f.1 ++ ": " ++ e)) := by
          unfold loadFile
          rw [if_neg hc, hdb]
        rw [hlf] at h
        simp at h
      | ok db =>
        have hlf : loadFile xml eng fs f =
            ({ Databases := alistInsert (alistInsert fs.Databases f.1 db) db.Matches db },
             none) := by
          unfold loadFile
          rw [if_neg hc, hdb]
        rw [hlf] at h
        have hkf : k ∉ dbAliases xml eng f := hk.1
        have hkal : k ≠ f.1 ∧ k ≠ db.Matches := by
          unfold dbAliases at hkf
          rw [if_neg hc, hdb] at hkf
          simp at hkf
          exact hkf
        rw [ih _ h hk.2]
        show alistFind (alistInsert (alistInsert fs.Databases f.1 db) db.Matches db) k =
          alistFind fs.Databases k
        rw [alistFind_insert_ne _ _ _ _ (fun he => hkal.2 he.symm),
          alistFind_insert_ne _ _ _ _ (fun he => hkal.1 he.symm)]

/-- C8 counterexample oracle: two well-formed documents that declare the
same match-target identifier. -/
def xmlDup : XmlLib :=
  { unmarshal := fun s =>
      if s = "d1" then
        .ok { Matches := "svc.dup", Fingerprints := [ { Pattern := "p1", Certainty := "0.9" } ] }
      else if s = "d2" then .ok { Matches := "svc.dup" }
      else .error "xml parse error" }

/-- C8 counterexample: a load in which two databases declare the same
match-target identifier succeeds, yet the first database's source-name
alias and match-target alias then resolve to different databases, so
`MatchFirst` under the two keys returns different results — the claim
that after every successful load both aliases of every database resolve
to the same instance is false. -/
theorem registry_alias_collision :
    (LoadFingerprints xmlDup engEcho [("a.xml", "d1"), ("b.xml", "d2")]).2 = none ∧
    (LoadFingerprints xmlDup engEcho [("a.xml", "d1"), ("b.xml", "d2")]).1.MatchFirst
        "a.xml" "inp" ≠
      (LoadFingerprints xmlDup engEcho [("a.xml", "d1"), ("b.xml", "d2")]).1.MatchFirst
        "svc.dup" "inp" :=
  ⟨rfl, by decide⟩

/-- C8 amended: after a successful registry load in which the alias
keys contributed by the listing (each loaded file's source name and its
declared match-target identifier) are pairwise distinct, every loaded
database is registered under exactly those two alias keys, both resolve
to the same database value, and `MatchFirst` under either key returns
identical results for every input. -/
theorem registry_alias_resolution (xml : XmlLib) (eng : RegexEngine)
    (files l1 l2 : List (String × String)) (n c : String)
    (fs' : FingerprintSet) (db : FingerprintDB)
    (hsplit : files = l1 ++ (n, c) :: l2)
    (hx : strContains n ".xml" = true)
    (hdb : LoadFingerprintDB xml eng n c = .ok db)
    (hload : LoadFingerprints xml eng files = (fs', none))
    (hnodup : (allAliases xml eng files).Nodup) :
    alistFind fs'.Databases n = some db ∧
    alistFind fs'.Databases db.Matches = some db ∧
    ∀ data, fs'.MatchFirst n data = fs'.MatchFirst db.Matches data := by
  subst hsplit
  unfold LoadFingerprints at hload
  obtain ⟨fs1, h1, h2⟩ := loadFS_append xml eng _ _ _ _ hload
  have hcx : ¬ strContains n ".xml" = false := by rw [hx]; decide
  have hstep : loadFile xml eng fs1 (n, c) =
      ({ Databases := alistInsert (alistInsert fs1.Databases n db) db.Matches db },
       none) := by
    unfold loadFile
    rw [if_neg hcx, hdb]
  simp only [FingerprintSet.LoadFingerprintsFromFS, hstep] at h2
  have hAl : allAliases xml eng (l1 ++ (n, c) :: l2) =
      allAliases xml eng l1 ++ ([n, db.Matches] ++ allAliases xml eng l2) := by
    rw [allAliases_append]
    congr 1
    show allAliases xml eng ((n, c) :: l2) = [n, db.Matches] ++ allAliases xml eng l2
    simp only [allAliases]
    congr 1
    unfold dbAliases
    rw [if_neg hcx, hdb]
  rw [hAl] at hnodup
  have hmid : ([n, db.Matches] ++ allAliases xml eng l2).Nodup :=
    hnodup.of_append_right
  have hnm : n ≠ db.Matches := by
    have h12 : ([n, db.Matches] : List String).Nodup := hmid.of_append_left
    simp [List.nodup_cons] at h12
    exact h12
  have hdisj := List.disjoint_of_nodup_append hmid
  have hn2 : n ∉ allAliases xml eng l2 := by
    intro hmem
    exact hdisj (by simp) hmem
  have hm2 : db.Matches ∉ allAliases xml eng l2 := by
    intro hmem
    exact hdisj (by simp) hmem
  have pfn : alistFind fs'.Databases n = some db := by
    rw [find_after_load xml eng l2 _ _ _ h2 hn2]
    show alistFind (alistInsert (alistInsert fs1.Databases n db) db.Matches db) n = some db
    rw [alistFind_insert_ne _ _ _ _ (fun he => hnm he.symm), alistFind_insert_self]
  have pfm : alistFind fs'.Databases db.Matches = some db := by
    rw [find_after_load xml eng l2 _ _ _ h2 hm2]
    show alistFind (alistInsert (alistInsert fs1.Databases n db) db.Matches db) db.Matches =
      some db
    rw [alistFind_insert_self]
  refine ⟨pfn, pfm, fun data => ?_⟩
  unfold FingerprintSet.MatchFirst
  rw [pfn, pfm]

/-- C8 witness oracle: one well-formed document. -/
def xmlW8 : XmlLib :=
  { unmarshal := fun s =>
      if s = "doc" then .ok { Matches := "svc.thing" } else .error "xml parse error" }

/-- The database the C8 witness load registers. -/
def dbW8 : FingerprintDB := { Matches := "svc.thing", Name := "w.xml" }

/-- The registry the C8 witness load produces. -/
def fsW8 : FingerprintSet :=
  { Databases := [("w.xml", dbW8), ("svc.thing", dbW8)] }

/-- Witness for the amended C8 theorem on a concrete one-file load. -/
theorem registry_alias_resolution_witness :
    alistFind fsW8.Databases "w.xml" = some dbW8 ∧
    alistFind fsW8.Databases "svc.thing" = some dbW8 ∧
    fsW8.MatchFirst "w.xml" "inp" = fsW8.MatchFirst "svc.thing" "inp" := by
  have h := registry_alias_resolution xmlW8 engEcho [("w.xml", "doc")] [] []
    "w.xml" "doc" fsW8 dbW8 rfl rfl rfl rfl (by decide)
  exact ⟨h.1, h.2.1, h.2.2 "inp"⟩

/-! ### C4: unresolved static template reference -/

theorem scanChars_unresolved (values : List (String × String))
    (hfind : alistFind values "undefined.key" = none) :
    substituteRaw values "\x7bundefined.key\x7d" =
      ("\x7bundefined.key\x7d", [msgUnresolved "undefined.key"], true) := by
  have hdata : "\x7bundefined.key\x7d".data =
      ['\x7b', 'u', 'n', 'd', 'e', 'f', 'i', 'n', 'e', 'd', '.', 'k', 'e', 'y', '\x7d'] := rfl
  unfold substituteRaw
  rw [hdata]
  simp [scanChars, isIdentChar, replRef, hfind, msgUnresolved]

theorem seedCertainty_find_ne (fp : Fingerprint) (k : String) (h : k ≠ "fp.certainty") :
    alistFind (seedCertainty fp) k = none := by
  unfold seedCertainty
  by_cases hc : fp.Certainty = ""
  · rw [if_pos hc]
    rfl
  · rw [if_neg hc]
    simp [alistInsert, alistFind, Ne.symm h]

theorem seedValues_find_ne (fp : Fingerprint) (k : String)
    (h1 : k ≠ "fp.certainty") (h2 : k ≠ "matched") :
    alistFind (seedValues fp) k = none := by
  cases hD : fp.Description with
  | none =>
    simp only [seedValues, hD]
    exact seedCertainty_find_ne fp k h1
  | some d =>
    simp only [seedValues, hD]
    by_cases hd : d = ""
    · rw [if_pos hd]
      exact seedCertainty_find_ne fp k h1
    · rw [if_neg hd, alistFind_insert_ne _ _ _ _ (Ne.symm h2)]
      exact seedCertainty_find_ne fp k h1

theorem mem_alistInsert {β : Type} (m : List (String × β)) (k : String) (v : β)
    (kv : String × β) (h : kv ∈ alistInsert m k v) : kv ∈ m ∨ kv = (k, v) := by
  induction m with
  | nil =>
    simp [alistInsert] at h
    exact Or.inr h
  | cons kv0 rest ih =>
    obtain ⟨k0, v0⟩ := kv0
    by_cases he : k0 = k
    · subst he
      simp only [alistInsert, if_pos rfl] at h
      rcases List.mem_cons.mp h with h | h
      · exact Or.inr h
      · exact Or.inl (List.mem_cons_of_mem _ h)
    · simp only [alistInsert, if_neg he] at h
      rcases List.mem_cons.mp h with h | h
      · exact Or.inl (h ▸ List.mem_cons_self _ _)
      · rcases ih h with h | h
        · exact Or.inl (List.mem_cons_of_mem _ h)
        · exact Or.inr h

theorem seedValues_keys (fp : Fingerprint) (kv : String × String)
    (h : kv ∈ seedValues fp) : kv.1 = "fp.certainty" ∨ kv.1 = "matched" := by
  have hcert : ∀ kv0 : String × String, kv0 ∈ seedCertainty fp → kv0.1 = "fp.certainty" := by
    intro kv0 h0
    unfold seedCertainty at h0
    by_cases hc : fp.Certainty = ""
    · rw [if_pos hc] at h0
      simp at h0
    · rw [if_neg hc] at h0
      simp [alistInsert] at h0
      rw [h0]
  cases hD : fp.Description with
  | none =>
    simp only [seedValues, hD] at h
    exact Or.inl (hcert kv h)
  | some d =>
    simp only [seedValues, hD] at h
    by_cases hd : d = ""
    · rw [if_pos hd] at h
      exact Or.inl (hcert kv h)
    · rw [if_neg hd] at h
      rcases mem_alistInsert _ _ _ _ h with h | h
      · exact Or.inl (hcert kv h)
      · rw [h]
        exact Or.inr rfl

theorem fold_skip_keys (zks : List String) (ks : List String)
    (acc : List (String × String) × List String)
    (h : ∀ k ∈ ks, k ∉ zks) : ks.foldl (substituteKey zks) acc = acc := by
  induction ks with
  | nil => rfl
  | cons k rest ih =>
    rw [List.foldl_cons]
    have hstep : substituteKey zks acc k = acc := by
      unfold substituteKey
      rw [if_neg (h k (List.mem_cons_self _ _))]
    rw [hstep]
    exact ih (fun k0 hk0 => h k0 (List.mem_cons_of_mem _ hk0))

theorem alistInsert_replace {β : Type} (m : List (String × β)) (k : String) (w v : β)
    (h : alistFind m k = none) : alistInsert (m ++ [(k, w)]) k v = m ++ [(k, v)] := by
  induction m with
  | nil => simp [alistInsert]
  | cons kv0 rest ih =>
    obtain ⟨k0, v0⟩ := kv0
    by_cases he : k0 = k
    · rw [alistFind, if_pos he] at h
      exact absurd h (by simp)
    · rw [alistFind, if_neg he] at h
      show (if k0 = k then (k0, v) :: (rest ++ [(k, w)])
            else (k0, v0) :: alistInsert (rest ++ [(k, w)]) k v) =
        (k0, v0) :: (rest ++ [(k, v)])
      rw [if_neg he, ih h]

theorem removeTmp_of_keys (m : List (String × String))
    (h : ∀ kv ∈ m, strStartsWith kv.1 "_tmp." = false) : removeTmp m = m := by
  apply List.filter_eq_self.mpr
  intro kv hkv
  rw [h kv hkv]
  rfl

/-- C4: for a match whose only parameter rule is a static (position-0)
rule carrying a placeholder whose identifier is not a key of the
mapping built so far (the spec's example rule, name `x`, value the
literal placeholder on `undefined.key`), `Match` returns
`matched = true`, records exactly one soft error for the unresolved
reference, and leaves the placeholder text unchanged as the value of
`x`. -/
theorem Match_unresolved_static_reference (fp : Fingerprint) (data : String)
    (hp : fp.Params = [{ Position := "0", Name := "x", Value := "\x7bundefined.key\x7d" }])
    (hm : fp.PatternCompiled data ≠ []) :
    (fp.Match data).Matched = true ∧
    (fp.Match data).Errors = [msgUnresolved "undefined.key"] ∧
    alistFind (fp.Match data).Values "x" = some "\x7bundefined.key\x7d" := by
  have hlen : ¬ (fp.PatternCompiled data).length = 0 :=
    fun h0 => hm (List.length_eq_zero.mp h0)
  have hSx : alistFind (seedValues fp) "x" = none :=
    seedValues_find_ne fp "x" (by decide) (by decide)
  have hSu : alistFind (seedValues fp) "undefined.key" = none :=
    seedValues_find_ne fp "undefined.key" (by decide) (by decide)
  have hstate : matchStateAfterParams fp (fp.PatternCompiled data) =
      { Values := seedValues fp ++ [("x", "\x7bundefined.key\x7d")],
        Errors := [], ZeroKeys := ["x"] } := by
    unfold matchStateAfterParams
    rw [hp, List.foldl_cons, List.foldl_nil]
    unfold processParam
    rw [if_pos rfl]
    rw [alistInsert_of_find_none _ _ _ hSx]
    rfl
  have hfindx : alistFind (seedValues fp ++ [("x", "\x7bundefined.key\x7d")]) "x" =
      some "\x7bundefined.key\x7d" := by
    rw [alistFind_append, hSx]
    simp [alistFind]
  have hfindu :
      alistFind (seedValues fp ++ [("x", "\x7bundefined.key\x7d")]) "undefined.key" = none := by
    rw [alistFind_append, hSu]
    simp [alistFind]
  have hpair : substitutedPair fp data =
      (seedValues fp ++ [("x", "\x7bundefined.key\x7d")],
       [msgUnresolved "undefined.key"]) := by
    unfold substitutedPair
    rw [hstate]
    simp only [List.map_append, List.map_cons, List.map_nil]
    rw [List.foldl_append]
    have hskip : List.foldl (substituteKey ["x"])
        (seedValues fp ++ [("x", "\x7bundefined.key\x7d")], ([] : List String))
        (List.map Prod.fst (seedValues fp)) =
        (seedValues fp ++ [("x", "\x7bundefined.key\x7d")], []) := by
      apply fold_skip_keys
      intro k hk
      rcases List.mem_map.mp hk with ⟨kv, hkv, hfst⟩
      rcases seedValues_keys fp kv hkv with h | h <;>
        · rw [← hfst, h]
          decide
    rw [hskip]
    rw [List.foldl_cons, List.foldl_nil]
    unfold substituteKey
    rw [if_pos (by decide)]
    rw [hfindx]
    simp only [scanChars_unresolved _ hfindu]
    rw [show goTrimSpace "\x7bundefined.key\x7d" = "\x7bundefined.key\x7d" from rfl]
    rw [alistInsert_replace _ _ _ _ hSx]
    simp
  have hclean : removeTmp (seedValues fp ++ [("x", "\x7bundefined.key\x7d")]) =
      seedValues fp ++ [("x", "\x7bundefined.key\x7d")] := by
    apply removeTmp_of_keys
    intro kv hkv
    rcases List.mem_append.mp hkv with h | h
    · rcases seedValues_keys fp kv h with h | h <;>
        · rw [h]
          decide
    · simp at h
      rw [h]
      decide
  refine ⟨?_, ?_, ?_⟩
  · unfold Fingerprint.Match
    rw [if_neg hlen]
    rfl
  · unfold Fingerprint.Match
    rw [if_neg hlen]
    show (substitutedPair fp data).2 = _
    rw [hpair]
  · unfold Fingerprint.Match
    rw [if_neg hlen]
    show alistFind (removeTmp (substitutedPair fp data).1) "x" = _
    rw [hpair]
    show alistFind (removeTmp (seedValues fp ++ [("x", "\x7bundefined.key\x7d")])) "x" = _
    rw [hclean, hfindx]

/-- Witness for C4 at a concrete fingerprint whose matcher echoes the
input. -/
theorem Match_unresolved_static_reference_witness :
    (Fingerprint.Match
        { Params := [{ Position := "0", Name := "x", Value := "\x7bundefined.key\x7d" }],
          PatternCompiled := fun s => [s] } "hello").Matched = true ∧
    (Fingerprint.Match
        { Params := [{ Position := "0", Name := "x", Value := "\x7bundefined.key\x7d" }],
          PatternCompiled := fun s => [s] } "hello").Errors =
      [msgUnresolved "undefined.key"] ∧
    alistFind (Fingerprint.Match
        { Params := [{ Position := "0", Name := "x", Value := "\x7bundefined.key\x7d" }],
          PatternCompiled := fun s => [s] } "hello").Values "x" =
      some "\x7bundefined.key\x7d" :=
  Match_unresolved_static_reference
    { Params := [{ Position := "0", Name := "x", Value := "\x7bundefined.key\x7d" }],
      PatternCompiled := fun s => [s] } "hello" rfl (by decide)

/-! ### C9: VerifyExamples errs exactly on a failing example -/

theorem firstSome_isSome_iff {α β : Type} (f : α → Option β) (l : List α) :
    (firstSome f l).isSome = true ↔ ∃ a ∈ l, (f a).isSome = true := by
  induction l with
  | nil => simp [firstSome]
  | cons a rest ih =>
    cases hf : f a with
    | none => simp [firstSome, hf, ih]
    | some b => simp [firstSome, hf]

theorem checkAttrs_isSome_iff (m : FingerprintMatch) (attrs : List (String × String)) :
    (checkAttrs m attrs).isSome = true ↔
    ∃ kv ∈ attrs, ¬(kv.1 = "_encoding" ∨ kv.1 = "_filename") ∧
      ¬ alistFind m.Values kv.1 = some kv.2 := by
  induction attrs with
  | nil => simp [checkAttrs]
  | cons kv0 rest ih =>
    obtain ⟨k, v⟩ := kv0
    unfold checkAttrs
    by_cases hmeta : k = "_encoding" ∨ k = "_filename"
    · rw [if_pos hmeta, ih]
      constructor
      · rintro ⟨kv, hkv, hx⟩
        exact ⟨kv, List.mem_cons_of_mem _ hkv, hx⟩
      · rintro ⟨kv, hkv, hx⟩
        rcases List.mem_cons.mp hkv with h | h
        · exact absurd (h ▸ hmeta) hx.1
        · exact ⟨kv, h, hx⟩
    · rw [if_neg hmeta]
      cases hf : alistFind m.Values k with
      | none =>
        simp only [Option.isSome_some, true_iff]
        exact ⟨(k, v), List.mem_cons_self _ _, hmeta, by rw [hf]; simp⟩
      | some verify =>
        show (if verify = v then checkAttrs m rest
              else some ("mismatched attribute value for " ++ k)).isSome = true ↔ _
        by_cases hv : verify = v
        · rw [if_pos hv, ih]
          constructor
          · rintro ⟨kv, hkv, hx⟩
            exact ⟨kv, List.mem_cons_of_mem _ hkv, hx⟩
          · rintro ⟨kv, hkv, hx⟩
            rcases List.mem_cons.mp hkv with h | h
            · subst h
              exact absurd (by rw [hf, hv]) hx.2
            · exact ⟨kv, h, hx⟩
        · rw [if_neg hv]
          simp only [Option.isSome_some, true_iff]
          refine ⟨(k, v), List.mem_cons_self _ _, hmeta, ?_⟩
          rw [hf]
          intro hc
          exact hv (Option.some.inj hc)

theorem verifyExample_isSome_iff (readF : String → Except String String) (fpath : String)
    (fp : Fingerprint) (ex : FingerprintExample) :
    (verifyExample readF fpath fp ex).isSome = true ↔
    ∀ d, resolveExample readF fpath ex = .ok d →
      ((fp.Match d).Matched = false ∨ (fp.Match d).Errors ≠ [] ∨
       ∃ kv ∈ ex.AttributeMap, ¬(kv.1 = "_encoding" ∨ kv.1 = "_filename") ∧
         ¬ alistFind (fp.Match d).Values kv.1 = some kv.2) := by
  unfold verifyExample
  cases hres : resolveExample readF fpath ex with
  | error e =>
    simp only
    constructor
    · intro _ d hd
      exact absurd hd (by simp)
    · intro _
      rfl
  | ok d0 =>
    simp only
    constructor
    · intro hsome d hd
      have hd0 : d0 = d := Except.ok.inj hd
      subst hd0
      by_cases hM : (fp.Match d0).Matched = false
      · exact Or.inl hM
      · rw [if_neg hM] at hsome
        by_cases hE : (fp.Match d0).Errors.length ≠ 0
        · refine Or.inr (Or.inl ?_)
          intro h0
          exact hE (by rw [h0]; rfl)
        · rw [if_neg hE] at hsome
          exact Or.inr (Or.inr ((checkAttrs_isSome_iff _ _).mp hsome))
    · intro hall
      rcases hall d0 rfl with hM | hE | hattr
      · rw [if_pos hM]
        rfl
      · have hE' : (fp.Match d0).Errors.length ≠ 0 := by
          intro h0
          exact hE (List.length_eq_zero.mp h0)
        by_cases hM : (fp.Match d0).Matched = false
        · rw [if_pos hM]
          rfl
        · rw [if_neg hM, if_pos hE']
          rfl
      · by_cases hM : (fp.Match d0).Matched = false
        · rw [if_pos hM]
          rfl
        · rw [if_neg hM]
          by_cases hE : (fp.Match d0).Errors.length ≠ 0
          · rw [if_pos hE]
            rfl
          · rw [if_neg hE]
            exact (checkAttrs_isSome_iff _ _).mpr hattr

/-- C9: the database-level `VerifyExamples` returns an error precisely
when some example of some fingerprint fails: either resolving the
example text fails (missing external file, or invalid base64 after
whitespace stripping — in that case the inner condition holds
vacuously), or the resolved text does not match, or matching
accumulates soft errors, or some declared attribute other than
`_encoding` and `_filename` is missing from the produced mapping or
differs from the declared value under exact string comparison. -/
theorem VerifyExamples_error_iff (readF : String → Except String String) (fpath : String)
    (fdb : FingerprintDB) :
    (FingerprintDB.VerifyExamples readF fpath fdb).isSome = true ↔
    ∃ fp ∈ fdb.Fingerprints, ∃ ex ∈ fp.Examples,
      ∀ d, resolveExample readF fpath ex = .ok d →
        ((fp.Match d).Matched = false ∨ (fp.Match d).Errors ≠ [] ∨
         ∃ kv ∈ ex.AttributeMap, ¬(kv.1 = "_encoding" ∨ kv.1 = "_filename") ∧
           ¬ alistFind (fp.Match d).Values kv.1 = some kv.2) := by
  unfold FingerprintDB.VerifyExamples Fingerprint.VerifyExamples
  rw [firstSome_isSome_iff]
  constructor
  · rintro ⟨fp, hfp, hsome⟩
    rcases (firstSome_isSome_iff _ _).mp hsome with ⟨ex, hex, hvex⟩
    exact ⟨fp, hfp, ex, hex, (verifyExample_isSome_iff readF fpath fp ex).mp hvex⟩
  · rintro ⟨fp, hfp, ex, hex, hcond⟩
    refine ⟨fp, hfp, (firstSome_isSome_iff _ _).mpr ?_⟩
    exact ⟨ex, hex, (verifyExample_isSome_iff readF fpath fp ex).mpr hcond⟩
